import Mathlib

/-!
Shallow embedding of the analytical core of `server.js` from the
radar-vesting-app repository: the as-of price lookup (`getPrice`), the
backtest engine (`backtest`), the external event normalizer
(`fetchRealUnlocks`), and the thin HTTP-boundary views built on them.

Modelling conventions:
* JavaScript numbers that stay finite are modelled as exact rationals (ℚ).
  Timestamps are rationals counting milliseconds since the epoch
  (`Date.parse` of the fixture ISO strings is abstracted to the instant it
  yields).
* The one place the source can produce a non-finite number — the ROI
  division `(sellPrice - buyPrice) / buyPrice` with `buyPrice = 0` — is
  modelled with `JSNum`, which distinguishes finite values from
  `Infinity`, `-Infinity` and `NaN` and propagates them through addition
  and division the way IEEE-754 (hence JavaScript) does for the operations
  this program performs.
* The price-series object is an association list keyed by token symbol;
  `priceSeries[token]` being `undefined` is `Option.none`.
-/

namespace RadarVesting

/-- One sample of a token's price history: `{timestamp, price}` in the
`price_series.json` fixture, with the timestamp already parsed to
milliseconds since the epoch. -/
structure PricePoint where
  timestamp : ℚ
  price : ℚ
deriving DecidableEq

/-- The `priceSeries` object of `server.js`: token symbol → ordered list of
samples. -/
abbrev PriceSeries := List (String × List PricePoint)

/-- The loop body of `getPrice` in `server.js` (lines 98–106): walk the
series in order, overwriting the tracked price while the sample's timestamp
is ≤ `ts`, and stop at the first sample whose timestamp exceeds `ts`. -/
def scanPrice (ts : ℚ) : List PricePoint → Option ℚ → Option ℚ
  | [], acc => acc
  | p :: rest, acc =>
      if p.timestamp ≤ ts then scanPrice ts rest (some p.price) else acc

/-- The function `getPrice(token, ts)` from `server.js` lines 94–108: the last known
price at or before `ts`, or `none` (JavaScript `undefined`) when the token
is unknown or no sample is at or before `ts`. -/
def getPrice (ps : PriceSeries) (token : String) (ts : ℚ) : Option ℚ :=
  match ps.lookup token with
  | none => none
  | some series => scanPrice ts series none

/-- An unlock event as stored in `unlocks.json` and consumed by `backtest`
and the aggregation views, with the timestamp already parsed to
milliseconds. -/
structure UnlockEvent where
  token : String
  timestamp : ℚ
  amountUsd : ℚ
  shortable : Bool
deriving DecidableEq

/-- A JavaScript number outcome: either an exact finite value or one of the
non-finite IEEE-754 values the ROI division can produce. -/
inductive JSNum where
  | fin : ℚ → JSNum
  | posInf : JSNum
  | negInf : JSNum
  | nan : JSNum
deriving DecidableEq

/-- JavaScript division `a / b` of two finite numbers: finite quotient when
`b ≠ 0`, otherwise `Infinity`, `-Infinity` or `NaN` by the sign of `a`. -/
def jsDivFin (a b : ℚ) : JSNum :=
  if b ≠ 0 then .fin (a / b)
  else if 0 < a then .posInf
  else if a < 0 then .negInf
  else .nan

/-- JavaScript addition on the values `totalRoi` can hold: finite plus
finite is exact, `NaN` absorbs everything, and opposite infinities give
`NaN`. -/
def JSNum.add : JSNum → JSNum → JSNum
  | nan, _ => nan
  | _, nan => nan
  | posInf, negInf => nan
  | negInf, posInf => nan
  | posInf, _ => posInf
  | _, posInf => posInf
  | negInf, _ => negInf
  | _, negInf => negInf
  | fin a, fin b => fin (a + b)

/-- The JavaScript comparison `roi > 0`: true for positive finite values
and `Infinity`, false for `-Infinity` and `NaN`. -/
def JSNum.gtZero : JSNum → Bool
  | fin a => 0 < a
  | posInf => true
  | negInf => false
  | nan => false

/-- JavaScript division of a (possibly non-finite) number by a non-negative
integer, as in `totalRoi / trades`. -/
def JSNum.divNat : JSNum → Nat → JSNum
  | fin a, n => jsDivFin a n
  | posInf, _ => posInf
  | negInf, _ => negInf
  | nan, _ => nan

/-- The object literal `backtest` returns (lines 138–142). -/
structure BacktestResult where
  trades : Nat
  winRate : ℚ
  avgRoi : JSNum
deriving DecidableEq

/-- The body of the `events.forEach` callback in `backtest`
(lines 123–135), acting on the accumulator `(trades, wins, totalRoi)`:
skip the event when either price lookup is `undefined`, otherwise add the
ROI, count the trade, and count a win when `roi > 0`. -/
def btStep (ps : PriceSeries) (token : String) (hoursBefore hoursAfter : ℚ)
    (acc : Nat × Nat × JSNum) (ev : UnlockEvent) : Nat × Nat × JSNum :=
  let buyTs := ev.timestamp - hoursBefore * 3600 * 1000
  let sellTs := ev.timestamp + hoursAfter * 3600 * 1000
  match getPrice ps token buyTs, getPrice ps token sellTs with
  | some buyPrice, some sellPrice =>
      let roi := jsDivFin (sellPrice - buyPrice) buyPrice
      (acc.1 + 1, acc.2.1 + (if roi.gtZero then 1 else 0), acc.2.2.add roi)
  | _, _ => acc

/-- The final aggregation of `backtest` (lines 136–142): averages guarded
by `trades > 0`, else `0`. -/
def mkResult : Nat × Nat × JSNum → BacktestResult
  | (trades, wins, totalRoi) =>
      { trades := trades
        winRate := if trades > 0 then (wins : ℚ) / (trades : ℚ) else 0
        avgRoi := if trades > 0 then totalRoi.divNat trades else JSNum.fin 0 }

/-- The function `backtest(token, hoursBefore, hoursAfter)` from `server.js`
lines 118–143, over an explicit store of unlock events and price series. -/
def backtest (ps : PriceSeries) (unlocks : List UnlockEvent) (token : String)
    (hoursBefore hoursAfter : ℚ) : BacktestResult :=
  mkResult ((unlocks.filter (fun u => u.token == token)).foldl
    (btStep ps token hoursBefore hoursAfter) (0, 0, JSNum.fin 0))

/-- One record of the external provider's `data` array: `{coin, date,
amount}`, with `amount` possibly missing (`none`). -/
structure ProviderRecord where
  coin : String
  date : String
  amount : Option ℚ
deriving DecidableEq

/-- An unlock event as produced by the normalizer, whose timestamp is the
string `` `${ev.date}T00:00:00Z` `` built in `server.js` line 67. -/
structure RemoteUnlockEvent where
  token : String
  timestamp : String
  amountUsd : ℚ
  shortable : Bool
deriving DecidableEq

/-- The per-record mapping inside `fetchRealUnlocks` (lines 65–70):
`token ← ev.coin`, `timestamp ← ev.date + "T00:00:00Z"`,
`amountUsd ← ev.amount || 0`, `shortable ← false`. -/
def mapUnlock (ev : ProviderRecord) : RemoteUnlockEvent :=
  { token := ev.coin
    timestamp := ev.date ++ "T00:00:00Z"
    amountUsd := ev.amount.getD 0
    shortable := false }

/-- The `data.map(...)` call over the provider records (line 65). -/
def normalizeUnlocks (data : List ProviderRecord) : List RemoteUnlockEvent :=
  data.map mapUnlock

/-- Outcome of the HTTPS exchange with the provider, seen from the `end` /
`error` handlers in `fetchRealUnlocks`: either the request errored, or a
body arrived and `JSON.parse` + the `parsed.data || []` read either failed
(`none`) or produced a list of records (`some`, empty when the `data`
field is missing or empty). -/
inductive TransportResult where
  | failure : TransportResult
  | response : Option (List ProviderRecord) → TransportResult
deriving DecidableEq

/-- The function `fetchRealUnlocks` from `server.js` lines 42–84, as a function of the
configured credential (`none` when the environment variable is unset; the
source tests JavaScript falsiness, so the empty string also counts as
unconfigured) and of the transport outcome. It resolves with `none`
(JavaScript `null`) instead of rejecting in every non-success case. -/
def fetchRealUnlocks (apiKey : Option String) (net : TransportResult) :
    Option (List RemoteUnlockEvent) :=
  if apiKey.getD "" = "" then none
  else
    match net with
    | .failure => none
    | .response none => none
    | .response (some data) => some (normalizeUnlocks data)

/-- The `/api/unlocks` handler's choice of response body (line 162):
`realData && realData.length > 0 ? realData : unlocks`. Polymorphic in the
element type because the comparison only looks at nullity and length. -/
def unlocksResponse {α : Type} (localUnlocks : List α)
    (realData : Option (List α)) : List α :=
  match realData with
  | none => localUnlocks
  | some d => if d.length > 0 then d else localUnlocks

/-- First-occurrence deduplication, the semantics of
`Array.from(new Set(xs))`: insert each element in order, skipping those
already present. -/
def addUnique {α : Type} [DecidableEq α] (acc : List α) (a : α) : List α :=
  if a ∈ acc then acc else acc ++ [a]

/-- The operation `Array.from(new Set(...))` applied in order. -/
def setDedup {α : Type} [DecidableEq α] (l : List α) : List α :=
  l.foldl addUnique []

/-- The `/api/shortable` handler (lines 171–179): distinct tokens of the
events whose `shortable` flag is set. -/
def shortableTokens (unlocks : List UnlockEvent) : List String :=
  setDedup ((unlocks.filter (fun u => u.shortable)).map (fun u => u.token))

/-- Parsed body of a `/api/backtest` request. `token = none` is a missing
field and `some ""` an empty one (both JavaScript-falsy); for the offsets,
`none` stands for a field that is absent or non-numeric (so that
`Number(x) || 0` yields `0`) and `some q` for one that `Number` converts
to the finite value `q`. -/
structure RawParams where
  token : Option String
  hoursBefore : Option ℚ
  hoursAfter : Option ℚ

/-- What the `/api/backtest` handler sends back: a 200 with the backtest
result, or a 400 with `{error: message}`. -/
inductive ApiResponse where
  | ok : BacktestResult → ApiResponse
  | err : String → ApiResponse
deriving DecidableEq

/-- The `/api/backtest` handler body (lines 202–220) after a successful
`JSON.parse`: coerce the offsets with `Number(x) || 0`, reject a falsy
token with the thrown-and-caught `"Token is required"` error, otherwise
run the backtest. -/
def handleBacktest (ps : PriceSeries) (unlocks : List UnlockEvent)
    (params : RawParams) : ApiResponse :=
  let hoursBefore := params.hoursBefore.getD 0
  let hoursAfter := params.hoursAfter.getD 0
  match params.token with
  | none => .err "Token is required"
  | some t =>
      if t = "" then .err "Token is required"
      else .ok (backtest ps unlocks t hoursBefore hoursAfter)

/-! ### Helper lemmas about the price scan -/

/-- A price series is sorted when its timestamps are pairwise
non-decreasing in scan order. -/
def SortedSeries (l : List PricePoint) : Prop :=
  l.Pairwise (fun a b => a.timestamp ≤ b.timestamp)

theorem scanPrice_or (ts : ℚ) (l : List PricePoint) (acc : Option ℚ) :
    scanPrice ts l acc =
      (((l.takeWhile fun p => p.timestamp ≤ ts).map PricePoint.price).getLast?).or acc := by
  induction l generalizing acc with
  | nil => simp [scanPrice]
  | cons p rest ih =>
    by_cases h : p.timestamp ≤ ts
    · rw [scanPrice, if_pos h, ih, List.takeWhile_cons, if_pos (by simpa using h)]
      cases hq : ((rest.takeWhile fun q => q.timestamp ≤ ts).map PricePoint.price).getLast? with
      | none => simp [List.getLast?_cons, hq, Option.or]
      | some v => simp [List.getLast?_cons, hq, Option.or]
    · rw [scanPrice, if_neg h, List.takeWhile_cons, if_neg (by simpa using h)]
      simp

theorem getPrice_takeWhile (ps : PriceSeries) (token : String) (ts : ℚ) :
    getPrice ps token ts =
      ((((ps.lookup token).getD []).takeWhile fun p => p.timestamp ≤ ts).map
        PricePoint.price).getLast? := by
  rw [getPrice]
  cases h : ps.lookup token with
  | none => simp
  | some series =>
    show scanPrice ts series none = _
    rw [scanPrice_or, Option.or_none]
    simp

theorem getLast?_mem_of_eq {α : Type} {l : List α} {a : α}
    (h : l.getLast? = some a) : a ∈ l := by
  induction l with
  | nil => simp at h
  | cons b rest ih =>
    rw [List.getLast?_cons] at h
    cases hr : rest.getLast? with
    | none =>
      rw [hr] at h
      simp at h
      simp [h]
    | some c =>
      rw [hr] at h
      simp at h
      exact List.mem_cons_of_mem _ (ih (by rw [hr, h]))

theorem sorted_mem_le_getLast {l : List PricePoint} {p : PricePoint}
    (hs : SortedSeries l) (hl : l.getLast? = some p) :
    ∀ x ∈ l, x.timestamp ≤ p.timestamp := by
  induction l with
  | nil => simp at hl
  | cons a rest ih =>
    rw [List.getLast?_cons] at hl
    rcases List.pairwise_cons.mp hs with ⟨ha, hrest⟩
    intro x hx
    cases hr : rest.getLast? with
    | none =>
      have : rest = [] := List.getLast?_eq_none_iff.mp hr
      subst this
      rw [hr] at hl
      simp at hl hx
      subst hl; subst hx; exact le_refl _
    | some q =>
      rw [hr] at hl
      simp at hl
      subst hl
      rcases List.mem_cons.mp hx with hxa | hxr
      · subst hxa
        exact ha _ (getLast?_mem_of_eq hr)
      · exact ih hrest (by rw [hr]) x hxr

/-- C1: `getPrice` scans the token's series in order, tracking the price of
the last sample with timestamp ≤ ts and stopping at the first sample past
ts — so it returns the price of the last element of the longest scanned
prefix whose samples are all ≤ ts, and `none` when no sample qualifies; on
a sorted series it is `none` for ts before the first sample or an unknown
token, and the last sample's price for ts at or after the last sample's
timestamp. -/
theorem getPrice_asOf_spec :
    (∀ (ps : PriceSeries) (token : String) (ts : ℚ),
      getPrice ps token ts =
        ((((ps.lookup token).getD []).takeWhile fun p => p.timestamp ≤ ts).map
          PricePoint.price).getLast?)
    ∧ (∀ (ps : PriceSeries) (token : String) (ts : ℚ),
        ps.lookup token = none → getPrice ps token ts = none)
    ∧ (∀ (ps : PriceSeries) (token : String) (ts : ℚ) (p : PricePoint)
        (rest : List PricePoint), ps.lookup token = some (p :: rest) →
        SortedSeries (p :: rest) → ts < p.timestamp →
        getPrice ps token ts = none)
    ∧ (∀ (ps : PriceSeries) (token : String) (ts : ℚ)
        (series : List PricePoint) (p : PricePoint),
        ps.lookup token = some series → SortedSeries series →
        series.getLast? = some p → p.timestamp ≤ ts →
        getPrice ps token ts = some p.price) := by
  refine ⟨getPrice_takeWhile, ?_, ?_, ?_⟩
  · intro ps token ts h
    rw [getPrice_takeWhile, h]
    simp
  · intro ps token ts p rest h _ hts
    rw [getPrice_takeWhile, h]
    simp only [Option.getD_some]
    rw [List.takeWhile_cons, if_neg (by simp [not_le.mpr hts])]
    simp
  · intro ps token ts series p h hs hl hts
    rw [getPrice_takeWhile, h]
    simp only [Option.getD_some]
    rw [List.takeWhile_eq_self_iff.mpr
      (fun x hx => by simpa using le_trans (sorted_mem_le_getLast hs hl x hx) hts)]
    rw [List.getLast?_map, hl]
    rfl

/-- Witness for C1 on a concrete sorted two-sample series. -/
theorem getPrice_asOf_spec_witness :
    getPrice [("AAA", [⟨0, 10⟩, ⟨3600000, 12⟩])] "BBB" 0 = none
    ∧ getPrice [("AAA", [⟨0, 10⟩, ⟨3600000, 12⟩])] "AAA" (-1) = none
    ∧ getPrice [("AAA", [⟨0, 10⟩, ⟨3600000, 12⟩])] "AAA" 7200000 = some 12 :=
  ⟨getPrice_asOf_spec.2.1 _ "BBB" 0 rfl,
   getPrice_asOf_spec.2.2.1 _ "AAA" (-1) ⟨0, 10⟩ [⟨3600000, 12⟩] rfl
     (by constructor <;> simp) (by norm_num),
   getPrice_asOf_spec.2.2.2 _ "AAA" 7200000 [⟨0, 10⟩, ⟨3600000, 12⟩] ⟨3600000, 12⟩
     rfl (by constructor <;> simp) rfl (by norm_num)⟩

/-! ### Helper lemmas about the backtest step -/

theorem btStep_of_absent (ps : PriceSeries) (token : String) (hb ha : ℚ)
    (acc : Nat × Nat × JSNum) (ev : UnlockEvent)
    (h : getPrice ps token (ev.timestamp - hb * 3600 * 1000) = none ∨
         getPrice ps token (ev.timestamp + ha * 3600 * 1000) = none) :
    btStep ps token hb ha acc ev = acc := by
  rcases h with h | h
  · cases h2 : getPrice ps token (ev.timestamp + ha * 3600 * 1000) <;>
      simp [btStep, h, h2]
  · cases h2 : getPrice ps token (ev.timestamp - hb * 3600 * 1000) <;>
      simp [btStep, h, h2]

theorem btStep_of_present (ps : PriceSeries) (token : String) (hb ha : ℚ)
    (acc : Nat × Nat × JSNum) (ev : UnlockEvent) (b s : ℚ)
    (hbuy : getPrice ps token (ev.timestamp - hb * 3600 * 1000) = some b)
    (hsell : getPrice ps token (ev.timestamp + ha * 3600 * 1000) = some s) :
    btStep ps token hb ha acc ev =
      (acc.1 + 1,
       acc.2.1 + (if (jsDivFin (s - b) b).gtZero then 1 else 0),
       acc.2.2.add (jsDivFin (s - b) b)) := by
  simp [btStep, hbuy, hsell]

theorem foldl_btStep_all_absent (ps : PriceSeries) (token : String)
    (hb ha : ℚ) (l : List UnlockEvent)
    (h : ∀ ev ∈ l, getPrice ps token (ev.timestamp - hb * 3600 * 1000) = none ∨
         getPrice ps token (ev.timestamp + ha * 3600 * 1000) = none)
    (acc : Nat × Nat × JSNum) :
    l.foldl (btStep ps token hb ha) acc = acc := by
  induction l generalizing acc with
  | nil => rfl
  | cons ev rest ih =>
    rw [List.foldl_cons, btStep_of_absent ps token hb ha acc ev (h ev (by simp))]
    exact ih (fun e he => h e (by simp [he])) acc

/-- C2: per unlock event of the requested token, `backtest` (as the fold of
`btStep` over the filtered events) contributes nothing when the buy- or
sell-side lookup at `event.timestamp ∓ hours×3600×1000 ms` is absent, and
otherwise counts exactly one trade, accumulates
`roi = (sellPrice − buyPrice) / buyPrice`, and counts a win exactly when
`roi > 0` (for a nonzero buy price the ROI is the exact rational quotient,
and a zero ROI is not a win). -/
theorem backtest_event_accounting :
    (∀ (ps : PriceSeries) (unlocks : List UnlockEvent) (token : String)
      (hb ha : ℚ),
      backtest ps unlocks token hb ha =
        mkResult ((unlocks.filter (fun u => u.token == token)).foldl
          (btStep ps token hb ha) (0, 0, JSNum.fin 0)))
    ∧ (∀ (ps : PriceSeries) (token : String) (hb ha : ℚ)
        (acc : Nat × Nat × JSNum) (ev : UnlockEvent),
        getPrice ps token (ev.timestamp - hb * 3600 * 1000) = none ∨
        getPrice ps token (ev.timestamp + ha * 3600 * 1000) = none →
        btStep ps token hb ha acc ev = acc)
    ∧ (∀ (ps : PriceSeries) (token : String) (hb ha : ℚ)
        (acc : Nat × Nat × JSNum) (ev : UnlockEvent) (b s : ℚ),
        getPrice ps token (ev.timestamp - hb * 3600 * 1000) = some b →
        getPrice ps token (ev.timestamp + ha * 3600 * 1000) = some s →
        btStep ps token hb ha acc ev =
          (acc.1 + 1,
           acc.2.1 + (if (jsDivFin (s - b) b).gtZero then 1 else 0),
           acc.2.2.add (jsDivFin (s - b) b)))
    ∧ (∀ b s : ℚ, b ≠ 0 →
        jsDivFin (s - b) b = JSNum.fin ((s - b) / b)
        ∧ ((jsDivFin (s - b) b).gtZero = true ↔ 0 < (s - b) / b)) := by
  refine ⟨fun _ _ _ _ _ => rfl, btStep_of_absent, btStep_of_present, ?_⟩
  intro b s hb
  constructor
  · simp [jsDivFin, hb]
  · simp [jsDivFin, hb, JSNum.gtZero]

/-- Witness for C2: one skipped event (buy timestamp before all samples)
and one counted winning trade on a concrete series. -/
theorem backtest_event_accounting_witness :
    btStep [("AAA", [⟨0, 10⟩, ⟨3600000, 12⟩])] "AAA" 1 0 (0, 0, JSNum.fin 0)
      ⟨"AAA", -7200000, 0, false⟩ = (0, 0, JSNum.fin 0)
    ∧ btStep [("AAA", [⟨0, 10⟩, ⟨3600000, 12⟩])] "AAA" 1 0 (0, 0, JSNum.fin 0)
      ⟨"AAA", 3600000, 0, false⟩ = (1, 1, JSNum.fin (1/5)) := by
  constructor
  · exact backtest_event_accounting.2.1 _ _ _ _ _ _
      (Or.inl (by norm_num [getPrice, scanPrice, List.lookup_cons]))
  · have h := backtest_event_accounting.2.2.1
      [("AAA", [⟨0, 10⟩, ⟨3600000, 12⟩])] "AAA" 1 0 (0, 0, JSNum.fin 0)
      ⟨"AAA", 3600000, 0, false⟩ 10 12
      (by norm_num [getPrice, scanPrice, List.lookup_cons])
      (by norm_num [getPrice, scanPrice, List.lookup_cons])
    rw [h]
    norm_num [jsDivFin, JSNum.add, JSNum.gtZero]

/-- C3: whenever the counted trades come out to 0 — in particular when the
token has no matching unlock events, or when every matching event lacks buy
or sell price coverage — `backtest` returns `{trades := 0, winRate := 0,
avgRoi := 0}`, exact zeros rather than a failed division. -/
theorem backtest_zero_trades (ps : PriceSeries) (unlocks : List UnlockEvent)
    (token : String) (hb ha : ℚ) :
    ((backtest ps unlocks token hb ha).trades = 0 →
      backtest ps unlocks token hb ha = ⟨0, 0, JSNum.fin 0⟩)
    ∧ (unlocks.filter (fun u => u.token == token) = [] →
      backtest ps unlocks token hb ha = ⟨0, 0, JSNum.fin 0⟩)
    ∧ ((∀ ev ∈ unlocks.filter (fun u => u.token == token),
          getPrice ps token (ev.timestamp - hb * 3600 * 1000) = none ∨
          getPrice ps token (ev.timestamp + ha * 3600 * 1000) = none) →
      backtest ps unlocks token hb ha = ⟨0, 0, JSNum.fin 0⟩) := by
  refine ⟨?_, ?_, ?_⟩
  · intro h
    unfold backtest at h ⊢
    rcases hf : (unlocks.filter (fun u => u.token == token)).foldl
      (btStep ps token hb ha) (0, 0, JSNum.fin 0) with ⟨t, w, r⟩
    rw [hf] at h ⊢
    have ht : t = 0 := h
    subst ht
    simp [mkResult]
  · intro h
    unfold backtest
    rw [h]
    simp [mkResult]
  · intro h
    unfold backtest
    rw [foldl_btStep_all_absent ps token hb ha _ h]
    simp [mkResult]

/-- Witness for C3: an empty store, a token with no matching events, and a
token whose only event has no price coverage at all. -/
theorem backtest_zero_trades_witness :
    backtest [] [] "AAA" 0 0 = ⟨0, 0, JSNum.fin 0⟩
    ∧ backtest [] [⟨"BBB", 0, 0, false⟩] "AAA" 0 0 = ⟨0, 0, JSNum.fin 0⟩
    ∧ backtest [] [⟨"AAA", 0, 0, false⟩] "AAA" 0 0 = ⟨0, 0, JSNum.fin 0⟩ :=
  ⟨(backtest_zero_trades [] [] "AAA" 0 0).1 rfl,
   (backtest_zero_trades [] [⟨"BBB", 0, 0, false⟩] "AAA" 0 0).2.1 rfl,
   (backtest_zero_trades [] [⟨"AAA", 0, 0, false⟩] "AAA" 0 0).2.2
     (fun _ _ => Or.inl rfl)⟩

/-- C4: the concrete scenario — series for "AAA" is
`[(t0, 10), (t0 + 1h, 12)]`, one unlock for "AAA" at `t0 + 1h`,
`backtest("AAA", hoursBefore := 1, hoursAfter := 0)` buys at `t0` for 10,
sells at `t0 + 1h` for 12, and returns
`{trades := 1, winRate := 1, avgRoi := 1/5}` (1/5 = 0.2). -/
theorem backtest_scenario_aaa (t0 : ℚ) :
    backtest [("AAA", [⟨t0, 10⟩, ⟨t0 + 3600000, 12⟩])]
      [⟨"AAA", t0 + 3600000, 0, false⟩] "AAA" 1 0 =
      ⟨1, 1, JSNum.fin (1/5)⟩ := by
  have e1 : (UnlockEvent.mk "AAA" (t0 + 3600000) 0 false).timestamp
      - 1 * 3600 * 1000 = t0 := by
    show t0 + 3600000 - 1 * 3600 * 1000 = t0
    ring
  have e2 : (UnlockEvent.mk "AAA" (t0 + 3600000) 0 false).timestamp
      + 0 * 3600 * 1000 = t0 + 3600000 := by
    show t0 + 3600000 + 0 * 3600 * 1000 = t0 + 3600000
    ring
  have hbuy : getPrice [("AAA", [⟨t0, 10⟩, ⟨t0 + 3600000, 12⟩])] "AAA" t0
      = some 10 := by
    show scanPrice t0 [⟨t0, 10⟩, ⟨t0 + 3600000, 12⟩] none = some 10
    simp only [scanPrice]
    norm_num
  have hsell : getPrice [("AAA", [⟨t0, 10⟩, ⟨t0 + 3600000, 12⟩])] "AAA"
      (t0 + 3600000) = some 12 := by
    show scanPrice (t0 + 3600000) [⟨t0, 10⟩, ⟨t0 + 3600000, 12⟩] none = some 12
    simp only [scanPrice]
    norm_num
  unfold backtest
  rw [show ([⟨"AAA", t0 + 3600000, 0, false⟩] : List UnlockEvent).filter
      (fun u => u.token == "AAA") = [⟨"AAA", t0 + 3600000, 0, false⟩] by simp,
    List.foldl_cons, List.foldl_nil,
    btStep_of_present _ _ _ _ _ _ 10 12 (by rw [e1]; exact hbuy)
      (by rw [e2]; exact hsell)]
  norm_num [mkResult, jsDivFin, JSNum.add, JSNum.gtZero, JSNum.divNat]

/-- C5: on an input whose buy price is exactly 0 with a present sell price,
the ROI division divides by zero: the event is still counted as a trade,
the quotient is the non-finite `Infinity`, and it is incorporated unguarded
into `totalRoi` and hence `avgRoi` (it even counts as a win, since
`Infinity > 0` holds in JavaScript). -/
theorem backtest_zero_buyPrice_divzero :
    backtest [("ZZZ", [⟨0, 0⟩, ⟨3600000, 5⟩])] [⟨"ZZZ", 3600000, 0, false⟩]
      "ZZZ" 1 0 = ⟨1, 1, JSNum.posInf⟩ := by
  norm_num [backtest, btStep, getPrice, scanPrice, List.lookup_cons,
    mkResult, jsDivFin, JSNum.add, JSNum.gtZero, JSNum.divNat]

/-- C6: the normalizer turns each provider record `{coin, date, amount}`
into exactly one unlock event with `token = coin`, `timestamp = date ++
"T00:00:00Z"` (midnight UTC of that date), `amountUsd = amount` or `0` when
missing, and `shortable = false` always; in particular
`{coin := "BBB", date := "2024-01-01", amount := 5000}` maps to
`{token := "BBB", timestamp := "2024-01-01T00:00:00Z", amountUsd := 5000,
shortable := false}`. -/
theorem normalizer_maps_records :
    (∀ ev : ProviderRecord,
      mapUnlock ev =
        ⟨ev.coin, ev.date ++ "T00:00:00Z", ev.amount.getD 0, false⟩)
    ∧ (∀ data : List ProviderRecord,
      (normalizeUnlocks data).length = data.length)
    ∧ (∀ (data : List ProviderRecord) (i : Nat),
      (normalizeUnlocks data)[i]? = (data[i]?).map mapUnlock)
    ∧ normalizeUnlocks [⟨"BBB", "2024-01-01", some 5000⟩]
      = [⟨"BBB", "2024-01-01T00:00:00Z", 5000, false⟩] :=
  ⟨fun _ => rfl,
   fun data => by simp [normalizeUnlocks],
   fun data i => by simp [normalizeUnlocks],
   rfl⟩

/-- C7: the normalizer resolves with "absent" (`none`) exactly when no
credential is configured (unset or empty, both JavaScript-falsy), the
transport fails, or the response body is unparseable — and in every case it
resolves rather than propagating an error (an empty `data` array gives
`some []`, not `none`). -/
theorem fetchRealUnlocks_absent_iff :
    ∀ (apiKey : Option String) (net : TransportResult),
      (fetchRealUnlocks apiKey net = none ↔
        apiKey.getD "" = "" ∨ net = .failure ∨ net = .response none)
      ∧ (fetchRealUnlocks apiKey net = none ∨
        ∃ events, fetchRealUnlocks apiKey net = some events) := by
  intro apiKey net
  constructor
  · constructor
    · intro h
      by_cases hk : apiKey.getD "" = ""
      · exact Or.inl hk
      · right
        unfold fetchRealUnlocks at h
        rw [if_neg hk] at h
        cases net with
        | failure => exact Or.inl rfl
        | response o =>
          cases o with
          | none => exact Or.inr rfl
          | some d => simp at h
    · intro h
      unfold fetchRealUnlocks
      rcases h with h | h | h
      · rw [if_pos h]
      · subst h
        by_cases hk : apiKey.getD "" = "" <;> simp [hk]
      · subst h
        by_cases hk : apiKey.getD "" = "" <;> simp [hk]
  · cases hf : fetchRealUnlocks apiKey net with
    | none => exact Or.inl rfl
    | some d => exact Or.inr ⟨d, rfl⟩

/-- Witness for C7: missing credential, transport failure, malformed body,
and the contrasting successful empty response. -/
theorem fetchRealUnlocks_absent_iff_witness :
    fetchRealUnlocks none TransportResult.failure = none
    ∧ fetchRealUnlocks (some "key") TransportResult.failure = none
    ∧ fetchRealUnlocks (some "key") (TransportResult.response none) = none
    ∧ fetchRealUnlocks (some "key") (TransportResult.response (some []))
      = some [] :=
  ⟨(fetchRealUnlocks_absent_iff none .failure).1.mpr (Or.inl rfl),
   (fetchRealUnlocks_absent_iff (some "key") .failure).1.mpr (Or.inr (Or.inl rfl)),
   (fetchRealUnlocks_absent_iff (some "key") (.response none)).1.mpr
     (Or.inr (Or.inr rfl)),
   rfl⟩

/-- C8: the "list unlocks" response body is the local collection verbatim
when the normalizer yields `none` or an empty list, and otherwise is
exactly the normalizer's output, never a merge. -/
theorem unlocksResponse_fallback :
    ∀ (α : Type) (localUnlocks : List α) (realData : Option (List α)),
      ((realData = none ∨ realData = some []) →
        unlocksResponse localUnlocks realData = localUnlocks)
      ∧ (∀ d, realData = some d → d ≠ [] →
        unlocksResponse localUnlocks realData = d) := by
  intro α l r
  constructor
  · rintro (h | h) <;> subst h <;> simp [unlocksResponse]
  · intro d hd hne
    subst hd
    show (if d.length > 0 then d else l) = d
    rw [if_pos (List.length_pos.mpr hne)]

/-- Witness for C8 on small concrete lists. -/
theorem unlocksResponse_fallback_witness :
    unlocksResponse [1, 2] (none : Option (List Nat)) = [1, 2]
    ∧ unlocksResponse [1, 2] (some ([] : List Nat)) = [1, 2]
    ∧ unlocksResponse [1, 2] (some [9]) = [9] :=
  ⟨(unlocksResponse_fallback Nat [1, 2] none).1 (Or.inl rfl),
   (unlocksResponse_fallback Nat [1, 2] (some [])).1 (Or.inr rfl),
   (unlocksResponse_fallback Nat [1, 2] (some [9])).2 [9] rfl (by decide)⟩

/-- C9: a missing or empty token makes the backtest boundary answer with
the structured error `{error := "Token is required"}` rather than a
result, while for a present token the absent-or-non-numeric hour offsets
are silently coerced to 0 and the backtest runs. -/
theorem handleBacktest_params :
    ∀ (ps : PriceSeries) (unlocks : List UnlockEvent) (params : RawParams),
      ((params.token = none ∨ params.token = some "") →
        handleBacktest ps unlocks params = .err "Token is required")
      ∧ (∀ t, params.token = some t → t ≠ "" →
        handleBacktest ps unlocks params =
          .ok (backtest ps unlocks t
            (params.hoursBefore.getD 0) (params.hoursAfter.getD 0))) := by
  intro ps unlocks params
  constructor
  · rintro (h | h) <;> simp [handleBacktest, h]
  · intro t ht hne
    simp [handleBacktest, ht, hne]

/-- Witness for C9: missing token, empty token, and a valid token with one
absent and one numeric offset. -/
theorem handleBacktest_params_witness :
    handleBacktest [] [] ⟨none, none, none⟩ = .err "Token is required"
    ∧ handleBacktest [] [] ⟨some "", some 1, none⟩ = .err "Token is required"
    ∧ handleBacktest [] [] ⟨some "AAA", none, some 2⟩ =
      .ok (backtest [] [] "AAA" 0 2) :=
  ⟨(handleBacktest_params [] [] ⟨none, none, none⟩).1 (Or.inl rfl),
   (handleBacktest_params [] [] ⟨some "", some 1, none⟩).1 (Or.inr rfl),
   (handleBacktest_params [] [] ⟨some "AAA", none, some 2⟩).2 "AAA" rfl
     (by decide)⟩

/-! ### Helper lemmas about set-style deduplication -/

theorem mem_foldl_addUnique {α : Type} [DecidableEq α] (l : List α)
    (init : List α) (x : α) :
    x ∈ l.foldl addUnique init ↔ x ∈ init ∨ x ∈ l := by
  induction l generalizing init with
  | nil => simp
  | cons a rest ih =>
    rw [List.foldl_cons, ih]
    unfold addUnique
    by_cases h : a ∈ init
    · rw [if_pos h]
      simp only [List.mem_cons]
      constructor
      · rintro (hx | hx)
        · exact Or.inl hx
        · exact Or.inr (Or.inr hx)
      · rintro (hx | hx | hx)
        · exact Or.inl hx
        · exact Or.inl (hx ▸ h)
        · exact Or.inr hx
    · rw [if_neg h]
      simp only [List.mem_append, List.mem_singleton, List.mem_cons,
        List.not_mem_nil, or_false]
      tauto

theorem mem_setDedup {α : Type} [DecidableEq α] (l : List α) (x : α) :
    x ∈ setDedup l ↔ x ∈ l := by
  unfold setDedup
  rw [mem_foldl_addUnique]
  simp

/-- C10: the shortable-tokens view contains a token exactly when some
unlock event for it has `shortable = true`; hence it never contains a
token all of whose events have `shortable = false`. -/
theorem shortableTokens_spec :
    ∀ (unlocks : List UnlockEvent) (t : String),
      (t ∈ shortableTokens unlocks ↔
        ∃ u, u ∈ unlocks ∧ u.shortable = true ∧ u.token = t)
      ∧ ((∀ u ∈ unlocks, u.token = t → u.shortable = false) →
        t ∉ shortableTokens unlocks) := by
  intro unlocks t
  have hmem : t ∈ shortableTokens unlocks ↔
      ∃ u, u ∈ unlocks ∧ u.shortable = true ∧ u.token = t := by
    unfold shortableTokens
    rw [mem_setDedup]
    constructor
    · intro h
      rcases List.mem_map.mp h with ⟨u, hu, htok⟩
      rcases List.mem_filter.mp hu with ⟨humem, hshort⟩
      exact ⟨u, humem, hshort, htok⟩
    · rintro ⟨u, humem, hshort, htok⟩
      exact List.mem_map.mpr ⟨u, List.mem_filter.mpr ⟨humem, hshort⟩, htok⟩
  refine ⟨hmem, ?_⟩
  intro hall hin
  rcases hmem.mp hin with ⟨u, humem, hshort, htok⟩
  have hf := hall u humem htok
  rw [hf] at hshort
  exact Bool.false_ne_true hshort

/-- Witness for C10: a store with one shortable and one non-shortable
token. -/
theorem shortableTokens_spec_witness :
    "AAA" ∈ shortableTokens [⟨"AAA", 0, 0, true⟩, ⟨"BBB", 0, 0, false⟩]
    ∧ "BBB" ∉ shortableTokens [⟨"AAA", 0, 0, true⟩, ⟨"BBB", 0, 0, false⟩] :=
  ⟨(shortableTokens_spec _ "AAA").1.mpr
    ⟨⟨"AAA", 0, 0, true⟩, List.mem_cons_self _ _, rfl, rfl⟩,
   (shortableTokens_spec _ "BBB").2 (by decide)⟩

end RadarVesting
